import Mathlib

/-!
Shallow embedding of the stack-based state machine in
`src/engine/state.rs` of the amethyst repository.

Modelling decisions:

* A `State` trait object is represented by an abstract identifier of type
  `σ`.  The lifecycle callbacks (`on_start`, `on_stop`, `on_pause`,
  `on_resume`, `handle_events`) have no effect on the machine itself; the
  embedding records each invocation as an `Event` in an output trace, in
  invocation order.
* The `update` / `fixed_update` methods of a state are dynamic dispatch in
  Rust; here each tick takes a dispatch function `σ → Trans σ` giving the
  transition request the state returns at the (opaque) delta of that tick.
* The Rust `Vec<Box<State>>` keeps the stack top as its LAST element
  (`last_mut` is the active state).  The Lean list `state_stack` keeps the
  top as its HEAD, so Rust's front-to-back `iter_mut()` traversal
  corresponds to `.reverse` here, `Vec::push`/`Vec::pop` to consing and
  taking the tail.
* `Option::unwrap` panics on `None`; the only method that can actually
  panic is `start` (its `unwrap` is unguarded), so `start` returns an
  `Option`, with `none` modelling the panic.  All other methods are total.
-/

namespace Amethyst

/-- Types of state transitions (`enum Trans` in the source). -/
inductive Trans (σ : Type) where
  | none
  | pop
  | push (state : σ)
  | switch (state : σ)
  | quit
deriving DecidableEq

/-- One recorded lifecycle-callback invocation on a state. -/
inductive Event (σ : Type) where
  | on_start (s : σ)
  | on_stop (s : σ)
  | on_pause (s : σ)
  | on_resume (s : σ)
  | handled_events (s : σ)
deriving DecidableEq

/-- A simple stack-based state machine (`struct StateMachine`).
`state_stack` is stored top-first (see the module comment). -/
structure StateMachine (σ : Type) where
  running : Bool
  state_stack : List σ
deriving DecidableEq

/-- Default body of the trait method `State::fixed_update`: ignores its
receiver and delta and returns `Trans::None`. -/
def State.fixed_update_default (σ : Type) : σ → Trans σ := fun _ => Trans.none

/-- Default body of the trait method `State::update`: ignores its receiver
and delta and returns `Trans::Pop`. -/
def State.update_default (σ : Type) : σ → Trans σ := fun _ => Trans.pop

namespace StateMachine

variable {σ : Type}

/-- `StateMachine::new(initial_state)`: not running, the initial state is
the sole stack entry. -/
def new (initial_state : σ) : StateMachine σ :=
  { running := false, state_stack := [initial_state] }

/-- `StateMachine::current`: the currently active state, i.e. the last
element of the Rust vector = the head of the top-first list. -/
def current (m : StateMachine σ) : Option σ :=
  m.state_stack.head?

/-- `StateMachine::start`: if not running, `current().unwrap().on_start()`
then `running = true`.  The unguarded `unwrap` panics when the stack is
empty, modelled by `Option.none`. -/
def start (m : StateMachine σ) : Option (StateMachine σ × List (Event σ)) :=
  if m.running then
    Option.some (m, [])
  else
    match m.current with
    | Option.none => Option.none
    | Option.some s =>
        Option.some ({ m with running := true }, [Event.on_start s])

/-- `StateMachine::handle_events`: if running, forward the event batch to
the current state (when one exists). -/
def handle_events (m : StateMachine σ) : StateMachine σ × List (Event σ) :=
  if m.running then
    match m.current with
    | Option.some s => (m, [Event.handled_events s])
    | Option.none => (m, [])
  else
    (m, [])

/-- `StateMachine::switch`: if running, `on_stop` the current top and pop
it (when the stack is non-empty), then push the new state and `on_start`
it.  Its two `unwrap`s cannot panic: the first is guarded by
`!is_empty()`, the second follows a push. -/
def switch (m : StateMachine σ) (state : σ) : StateMachine σ × List (Event σ) :=
  if m.running then
    match m.state_stack with
    | [] =>
        ({ m with state_stack := [state] }, [Event.on_start state])
    | top :: rest =>
        ({ m with state_stack := state :: rest },
         [Event.on_stop top, Event.on_start state])
  else
    (m, [])

/-- `StateMachine::push`: if running, `on_pause` the current top (when one
exists), push the new state, `on_start` it.  The `unwrap` follows a push
and cannot panic. -/
def push (m : StateMachine σ) (state : σ) : StateMachine σ × List (Event σ) :=
  if m.running then
    match m.state_stack with
    | [] =>
        ({ m with state_stack := [state] }, [Event.on_start state])
    | top :: rest =>
        ({ m with state_stack := state :: top :: rest },
         [Event.on_pause top, Event.on_start state])
  else
    (m, [])

/-- `StateMachine::pop`: if running, `on_stop` the current top and pop it
(when the stack is non-empty), then `on_resume` the new top when one
remains.  The `unwrap` is guarded by `!is_empty()`. -/
def pop (m : StateMachine σ) : StateMachine σ × List (Event σ) :=
  if m.running then
    match m.state_stack with
    | [] => (m, [])
    | top :: rest =>
        match rest with
        | [] => ({ m with state_stack := [] }, [Event.on_stop top])
        | next :: _ =>
            ({ m with state_stack := rest },
             [Event.on_stop top, Event.on_resume next])
  else
    (m, [])

/-- `StateMachine::stop`: if running, call `on_stop` on every stack entry
in the Rust vector's `iter_mut()` order — front to back, i.e. bottom of
the stack (least recently pushed) first, which is `.reverse` of the
top-first list — then clear `running`.  The stack itself is NOT cleared. -/
def stop (m : StateMachine σ) : StateMachine σ × List (Event σ) :=
  if m.running then
    ({ m with running := false }, m.state_stack.reverse.map Event.on_stop)
  else
    (m, [])

/-- `StateMachine::transition`: dispatch a requested transition, only
while running. -/
def transition (m : StateMachine σ) (request : Trans σ) :
    StateMachine σ × List (Event σ) :=
  if m.running then
    match request with
    | Trans.none => (m, [])
    | Trans.pop => m.pop
    | Trans.push state => m.push state
    | Trans.switch state => m.switch state
    | Trans.quit => m.stop
  else
    (m, [])

/-- `StateMachine::update`: if running, obtain the transition request from
the top state's `update` (captured by the dispatch function `f`, default
`Trans::None` when the stack is empty) and apply it. -/
def update (m : StateMachine σ) (f : σ → Trans σ) :
    StateMachine σ × List (Event σ) :=
  if m.running then
    match m.state_stack.head? with
    | Option.some s => m.transition (f s)
    | Option.none => m.transition Trans.none
  else
    (m, [])

/-- `StateMachine::fixed_update`: same shape as `update`, with the state's
`fixed_update` dispatch. -/
def fixed_update (m : StateMachine σ) (f : σ → Trans σ) :
    StateMachine σ × List (Event σ) :=
  if m.running then
    match m.state_stack.head? with
    | Option.some s => m.transition (f s)
    | Option.none => m.transition Trans.none
  else
    (m, [])

end StateMachine

/-- One invocation of a public method of the machine, for reachability
arguments over the public interface. -/
inductive Op (σ : Type) where
  | start
  | handle_events
  | fixed_update (f : σ → Trans σ)
  | update (f : σ → Trans σ)
  | push (s : σ)
  | pop
  | switch (s : σ)
  | stop

/-- Run one public method.  `Option.none` models a panic (only `start`
can panic). -/
def StateMachine.step (m : StateMachine σ) :
    Op σ → Option (StateMachine σ × List (Event σ))
  | Op.start => m.start
  | Op.handle_events => Option.some m.handle_events
  | Op.fixed_update f => Option.some (m.fixed_update f)
  | Op.update f => Option.some (m.update f)
  | Op.push s => Option.some (m.push s)
  | Op.pop => Option.some m.pop
  | Op.switch s => Option.some (m.switch s)
  | Op.stop => Option.some m.stop

/-- Run a sequence of public method calls, concatenating the callback
traces; a panic anywhere aborts the run. -/
def StateMachine.runOps (m : StateMachine σ) :
    List (Op σ) → Option (StateMachine σ × List (Event σ))
  | [] => Option.some (m, [])
  | op :: rest =>
    match m.step op with
    | Option.none => Option.none
    | Option.some (m1, tr1) =>
      match m1.runOps rest with
      | Option.none => Option.none
      | Option.some (m2, tr2) => Option.some (m2, tr1 ++ tr2)

/-! ## Helper lemmas -/

/-- Counting an element of a reversed list. -/
theorem list_count_reverse {α : Type} [DecidableEq α] (l : List α) (a : α) :
    l.reverse.count a = l.count a := by
  induction l with
  | nil => rfl
  | cons b t ih =>
      simp [List.reverse_cons, List.count_append, List.count_cons, ih]

/-- `on_stop` is an injective event constructor. -/
theorem on_stop_injective (σ : Type) :
    Function.Injective (Event.on_stop (σ := σ)) := by
  intro a b h
  cases h
  rfl

/-- `stop` never modifies the stack contents, only the `running` flag. -/
theorem StateMachine.stop_stack {σ : Type} (m : StateMachine σ) :
    (m.stop).1.state_stack = m.state_stack := by
  unfold StateMachine.stop
  split <;> rfl

/-- `start` never modifies the stack when it returns normally. -/
theorem StateMachine.start_stack {σ : Type} (m m' : StateMachine σ)
    (tr : List (Event σ)) (h : m.start = Option.some (m', tr)) :
    m'.state_stack = m.state_stack := by
  unfold StateMachine.start StateMachine.current at h
  split at h
  · simp only [Option.some.injEq, Prod.mk.injEq] at h
    rw [← h.1]
  · split at h
    · exact absurd h (by simp)
    · simp only [Option.some.injEq, Prod.mk.injEq] at h
      rw [← h.1]

/-- `handle_events` never modifies the machine. -/
theorem StateMachine.handle_events_fst {σ : Type} (m : StateMachine σ) :
    (m.handle_events).1 = m := by
  unfold StateMachine.handle_events
  split
  · split <;> rfl
  · rfl

/-- A transition can only empty a non-empty stack by a `Pop` applied when
the stack has exactly one entry; that pop emits exactly one `on_stop` and
leaves the machine running. -/
theorem StateMachine.transition_empty_stack {σ : Type} (m m' : StateMachine σ)
    (t : Trans σ) (tr : List (Event σ)) (ht : m.transition t = (m', tr))
    (hne : m.state_stack ≠ []) (he : m'.state_stack = []) :
    ∃ s, m.state_stack = [s] ∧ t = Trans.pop ∧ tr = [Event.on_stop s] ∧
      m.running = true ∧ m'.running = true := by
  by_cases hr : m.running
  · obtain ⟨top, rest, hs⟩ : ∃ top rest, m.state_stack = top :: rest := by
      cases hq : m.state_stack with
      | nil => exact absurd hq hne
      | cons a l => exact ⟨a, l, rfl⟩
    cases t with
    | none =>
        simp only [StateMachine.transition, hr, if_true, Prod.mk.injEq] at ht
        rw [← ht.1] at he
        exact absurd he hne
    | pop =>
        cases rest with
        | nil =>
            simp only [StateMachine.transition, hr, if_true, StateMachine.pop,
              hs, Prod.mk.injEq] at ht
            refine ⟨top, hs, rfl, ht.2.symm, hr, ?_⟩
            rw [← ht.1]
        | cons next rest2 =>
            simp only [StateMachine.transition, hr, if_true, StateMachine.pop,
              hs, Prod.mk.injEq] at ht
            rw [← ht.1] at he
            simp at he
    | push s =>
        simp only [StateMachine.transition, hr, if_true, StateMachine.push,
          hs, Prod.mk.injEq] at ht
        rw [← ht.1] at he
        simp at he
    | switch s =>
        simp only [StateMachine.transition, hr, if_true, StateMachine.switch,
          hs, Prod.mk.injEq] at ht
        rw [← ht.1] at he
        simp at he
    | quit =>
        simp only [StateMachine.transition, hr, if_true] at ht
        have := StateMachine.stop_stack m
        rw [ht] at this
        rw [this] at he
        exact absurd he hne
  · simp only [StateMachine.transition, hr, if_false, Bool.false_eq_true,
      Prod.mk.injEq] at ht
    rw [← ht.1] at he
    exact absurd he hne

/-! ## Claims -/

/-- Claim C1, counterexample: on a machine reached by `new(0); start();
push(1)` (Rust stack bottom-to-top `[0, 1]`), `stop()` invokes `on_stop(0)`
before `on_stop(1)` — bottom-to-top, not the claimed top-to-bottom
(most-recently-pushed-first) order. -/
theorem C1_counterexample :
    (StateMachine.new (0 : Nat)).runOps [Op.start, Op.push 1] =
      Option.some ({ running := true, state_stack := [1, 0] },
        [Event.on_start 0, Event.on_pause 0, Event.on_start 1]) ∧
    (({ running := true, state_stack := [1, 0] } : StateMachine Nat).stop).2 =
      [Event.on_stop 0, Event.on_stop 1] ∧
    [Event.on_stop 0, Event.on_stop 1] ≠
      [Event.on_stop (1 : Nat), Event.on_stop 0] := by
  refine ⟨by decide, by decide, by decide⟩

/-- Claim C1 (amended): on every running machine, `stop()` — directly or
via a `Quit` transition — invokes `on_stop` exactly once on every
remaining stack entry, in BOTTOM-TO-TOP traversal order (least recently
pushed first, the Rust `Vec`'s `iter_mut()` order), and then sets
`running` to `false`, leaving the stack contents in place. -/
theorem C1_stop_on_stop_all (σ : Type) [DecidableEq σ] (m : StateMachine σ)
    (h : m.running = true) :
    m.transition Trans.quit = m.stop ∧
    (m.transition Trans.quit).2 = m.state_stack.reverse.map Event.on_stop ∧
    (m.transition Trans.quit).1.running = false ∧
    (m.transition Trans.quit).1.state_stack = m.state_stack ∧
    ∀ s : σ, (m.transition Trans.quit).2.count (Event.on_stop s) =
      m.state_stack.count s := by
  have htq : m.transition Trans.quit = m.stop := by
    simp [StateMachine.transition, h]
  refine ⟨htq, ?_, ?_, ?_, ?_⟩
  · rw [htq]
    simp [StateMachine.stop, h]
  · rw [htq]
    simp [StateMachine.stop, h]
  · rw [htq, StateMachine.stop_stack]
  · intro s
    rw [htq]
    simp only [StateMachine.stop, h, if_true]
    rw [List.count_map_of_injective _ _ (on_stop_injective σ), list_count_reverse]

/-- Claim C1, witness for the amended theorem at a concrete machine. -/
theorem C1_witness :
    ({ running := true, state_stack := [1, 0] } : StateMachine Nat).transition
        Trans.quit =
      ({ running := true, state_stack := [1, 0] } : StateMachine Nat).stop :=
  (C1_stop_on_stop_all Nat { running := true, state_stack := [1, 0] } rfl).1

/-- Claim C2, counterexample: the public sequence `new(0); start(); pop()`
reaches a machine with `running = true` and an empty stack, so the stack
CAN be empty while running (and not inside `stop()`, which in fact never
drains the stack). -/
theorem C2_counterexample :
    (StateMachine.new (0 : Nat)).runOps [Op.start, Op.pop] =
      Option.some ({ running := true, state_stack := [] },
        [Event.on_start 0, Event.on_stop 0]) := by
  decide

/-- Claim C2 (amended): the only public step that empties a non-empty
stack is a `Pop` (direct, or requested by `update`/`fixed_update`) applied
when the stack has exactly one entry; it emits exactly one `on_stop` on
that last state and leaves the machine running.  `stop()` never drains
the stack. -/
theorem C2_empty_only_by_pop (σ : Type) (m m' : StateMachine σ) (op : Op σ)
    (tr : List (Event σ)) (hstep : m.step op = Option.some (m', tr))
    (hne : m.state_stack ≠ []) (he : m'.state_stack = []) :
    ∃ s, m.state_stack = [s] ∧ tr = [Event.on_stop s] ∧
      m.running = true ∧ m'.running = true := by
  cases op with
  | start =>
      have := StateMachine.start_stack m m' tr hstep
      rw [this] at he
      exact absurd he hne
  | handle_events =>
      simp only [StateMachine.step, Option.some.injEq] at hstep
      have := StateMachine.handle_events_fst m
      rw [hstep] at this
      simp only [Prod.fst] at this
      rw [this] at he
      exact absurd he hne
  | fixed_update f =>
      simp only [StateMachine.step, Option.some.injEq] at hstep
      by_cases hr : m.running
      · obtain ⟨top, rest, hs⟩ : ∃ top rest, m.state_stack = top :: rest := by
          cases hq : m.state_stack with
          | nil => exact absurd hq hne
          | cons a l => exact ⟨a, l, rfl⟩
        simp only [StateMachine.fixed_update, hr, if_true, hs,
          List.head?_cons] at hstep
        obtain ⟨s, h1, _, h3, h4, h5⟩ :=
          StateMachine.transition_empty_stack m m' (f top) tr hstep hne he
        exact ⟨s, h1, h3, h4, h5⟩
      · simp only [StateMachine.fixed_update, hr, if_false, Bool.false_eq_true,
          Prod.mk.injEq] at hstep
        rw [← hstep.1] at he
        exact absurd he hne
  | update f =>
      simp only [StateMachine.step, Option.some.injEq] at hstep
      by_cases hr : m.running
      · obtain ⟨top, rest, hs⟩ : ∃ top rest, m.state_stack = top :: rest := by
          cases hq : m.state_stack with
          | nil => exact absurd hq hne
          | cons a l => exact ⟨a, l, rfl⟩
        simp only [StateMachine.update, hr, if_true, hs,
          List.head?_cons] at hstep
        obtain ⟨s, h1, _, h3, h4, h5⟩ :=
          StateMachine.transition_empty_stack m m' (f top) tr hstep hne he
        exact ⟨s, h1, h3, h4, h5⟩
      · simp only [StateMachine.update, hr, if_false, Bool.false_eq_true,
          Prod.mk.injEq] at hstep
        rw [← hstep.1] at he
        exact absurd he hne
  | push s =>
      simp only [StateMachine.step, Option.some.injEq] at hstep
      have ht : m.transition (Trans.push s) = (m', tr) := by
        by_cases hr : m.running
        · simp only [StateMachine.transition, hr, if_true]
          exact hstep
        · simp only [StateMachine.transition, hr, if_false, Bool.false_eq_true]
          simp only [StateMachine.push, hr, if_false, Bool.false_eq_true] at hstep
          exact hstep
      obtain ⟨s1, h1, h2, h3, h4, h5⟩ :=
        StateMachine.transition_empty_stack m m' (Trans.push s) tr ht hne he
      exact absurd h2 (by simp)
  | pop =>
      simp only [StateMachine.step, Option.some.injEq] at hstep
      have ht : m.transition Trans.pop = (m', tr) := by
        by_cases hr : m.running
        · simp only [StateMachine.transition, hr, if_true]
          exact hstep
        · simp only [StateMachine.transition, hr, if_false, Bool.false_eq_true]
          simp only [StateMachine.pop, hr, if_false, Bool.false_eq_true] at hstep
          exact hstep
      obtain ⟨s1, h1, _, h3, h4, h5⟩ :=
        StateMachine.transition_empty_stack m m' Trans.pop tr ht hne he
      exact ⟨s1, h1, h3, h4, h5⟩
  | switch s =>
      simp only [StateMachine.step, Option.some.injEq] at hstep
      have ht : m.transition (Trans.switch s) = (m', tr) := by
        by_cases hr : m.running
        · simp only [StateMachine.transition, hr, if_true]
          exact hstep
        · simp only [StateMachine.transition, hr, if_false, Bool.false_eq_true]
          simp only [StateMachine.switch, hr, if_false, Bool.false_eq_true] at hstep
          exact hstep
      obtain ⟨s1, h1, h2, h3, h4, h5⟩ :=
        StateMachine.transition_empty_stack m m' (Trans.switch s) tr ht hne he
      exact absurd h2 (by simp)
  | stop =>
      simp only [StateMachine.step, Option.some.injEq] at hstep
      have := StateMachine.stop_stack m
      rw [hstep] at this
      simp only [Prod.fst] at this
      rw [this] at he
      exact absurd he hne

/-- Claim C2, witness for the amended theorem: popping the singleton stack
`[0]` of a running machine. -/
theorem C2_witness :
    ∃ s, ({ running := true, state_stack := [0] } : StateMachine Nat).state_stack
        = [s] ∧
      [Event.on_stop (0 : Nat)] = [Event.on_stop s] ∧
      ({ running := true, state_stack := [0] } : StateMachine Nat).running = true ∧
      ({ running := true, state_stack := ([] : List Nat) } :
        StateMachine Nat).running = true :=
  C2_empty_only_by_pop Nat { running := true, state_stack := [0] }
    { running := true, state_stack := [] } Op.pop [Event.on_stop 0]
    (by decide) (by decide) rfl

/-- Claim C3: on a running machine with stack `top :: rest` (top-first), a
`Pop` transition invokes `on_stop(top)`, removes it, then invokes
`on_resume` on the new top exactly when one remains; popping a singleton
stack empties it, fires no `on_resume`, and leaves the machine running. -/
theorem C3_pop_behaviour (σ : Type) (m : StateMachine σ) (top : σ)
    (rest : List σ) (h : m.running = true) (hs : m.state_stack = top :: rest) :
    (m.transition Trans.pop).1.state_stack = rest ∧
    (m.transition Trans.pop).1.running = true ∧
    (m.transition Trans.pop).2 =
      Event.on_stop top ::
        (match rest.head? with
         | Option.some next => [Event.on_resume next]
         | Option.none => []) := by
  cases rest with
  | nil => simp [StateMachine.transition, StateMachine.pop, h, hs]
  | cons next rest2 => simp [StateMachine.transition, StateMachine.pop, h, hs]

/-- Claim C3, witness: popping the two-entry stack `[1, 0]` and the
singleton stack `[0]`. -/
theorem C3_witness :
    (({ running := true, state_stack := [1, 0] } :
        StateMachine Nat).transition Trans.pop).1.state_stack = [0] ∧
    (({ running := true, state_stack := [0] } :
        StateMachine Nat).transition Trans.pop).1.running = true :=
  ⟨(C3_pop_behaviour Nat { running := true, state_stack := [1, 0] } 1 [0]
      rfl rfl).1,
   (C3_pop_behaviour Nat { running := true, state_stack := [0] } 0 []
      rfl rfl).2.1⟩

/-- Claim C4, counterexample: in the public sequence `new(0); start();
pop(); switch(5)` the stack size before the `Switch` is 0 and after it
is 1, so `Switch` does NOT always leave the stack size unchanged. -/
theorem C4_counterexample :
    ((StateMachine.new (0 : Nat)).runOps [Op.start, Op.pop]).map
        (fun p => p.1.state_stack.length) = Option.some 0 ∧
    ((StateMachine.new (0 : Nat)).runOps [Op.start, Op.pop, Op.switch 5]).map
        (fun p => p.1.state_stack.length) = Option.some 1 := by
  refine ⟨by decide, by decide⟩

/-- Claim C4 (amended): on a running machine, `Push` grows the stack size
by one; `Pop` with size ≥ 1 shrinks it by one; `Switch` with size ≥ 1
leaves it unchanged, but `Switch` on an empty stack grows it to 1. -/
theorem C4_stack_sizes (σ : Type) (m : StateMachine σ) (s s2 : σ)
    (h : m.running = true) :
    (m.transition (Trans.push s)).1.state_stack.length =
      m.state_stack.length + 1 ∧
    (1 ≤ m.state_stack.length →
      (m.transition Trans.pop).1.state_stack.length =
        m.state_stack.length - 1) ∧
    (1 ≤ m.state_stack.length →
      (m.transition (Trans.switch s2)).1.state_stack.length =
        m.state_stack.length) ∧
    (m.state_stack.length = 0 →
      (m.transition (Trans.switch s2)).1.state_stack.length = 1) := by
  cases hs : m.state_stack with
  | nil =>
      simp [StateMachine.transition, StateMachine.push, StateMachine.pop,
        StateMachine.switch, h, hs]
  | cons top rest =>
      cases rest with
      | nil =>
          simp [StateMachine.transition, StateMachine.push, StateMachine.pop,
            StateMachine.switch, h, hs]
      | cons next rest2 =>
          simp [StateMachine.transition, StateMachine.push, StateMachine.pop,
            StateMachine.switch, h, hs]

/-- Claim C4, witness: the sizes on a running machine with stack `[0]`. -/
theorem C4_witness :
    (({ running := true, state_stack := [0] } : StateMachine Nat).transition
        (Trans.push 1)).1.state_stack.length =
      ({ running := true, state_stack := [0] } :
        StateMachine Nat).state_stack.length + 1 :=
  (C4_stack_sizes Nat { running := true, state_stack := [0] } 1 2 rfl).1

/-- Claim C5: on a running machine, a `Push(s)` transition invokes exactly
`on_pause` on the current top (when one exists) followed by `on_start(s)`,
and places `s` on top of the stack. -/
theorem C5_push_behaviour (σ : Type) (m : StateMachine σ) (s : σ)
    (h : m.running = true) :
    (m.transition (Trans.push s)).1.state_stack = s :: m.state_stack ∧
    (m.transition (Trans.push s)).1.running = true ∧
    (m.transition (Trans.push s)).2 =
      (match m.state_stack.head? with
       | Option.some top => [Event.on_pause top, Event.on_start s]
       | Option.none => [Event.on_start s]) := by
  cases hs : m.state_stack with
  | nil => simp [StateMachine.transition, StateMachine.push, h, hs]
  | cons top rest => simp [StateMachine.transition, StateMachine.push, h, hs]

/-- Claim C5, witness: pushing 1 onto a running machine with stack `[0]`
fires `on_pause(0)` then `on_start(1)`. -/
theorem C5_witness :
    (({ running := true, state_stack := [0] } : StateMachine Nat).transition
        (Trans.push 1)).2 = [Event.on_pause 0, Event.on_start 1] :=
  (C5_push_behaviour Nat { running := true, state_stack := [0] } 1 rfl).2.2

/-- Claim C6: on a running machine with non-empty stack `top :: rest`, a
`Switch(s)` transition invokes `on_stop(top)` then `on_start(s)`, replaces
the top by `s`, and leaves the stack size unchanged. -/
theorem C6_switch_behaviour (σ : Type) (m : StateMachine σ) (s top : σ)
    (rest : List σ) (h : m.running = true)
    (hs : m.state_stack = top :: rest) :
    (m.transition (Trans.switch s)).1.state_stack = s :: rest ∧
    (m.transition (Trans.switch s)).1.running = true ∧
    (m.transition (Trans.switch s)).2 =
      [Event.on_stop top, Event.on_start s] ∧
    (m.transition (Trans.switch s)).1.state_stack.length =
      m.state_stack.length := by
  simp [StateMachine.transition, StateMachine.switch, h, hs]

/-- Claim C6, witness: `Switch(2)` from the singleton stack `[0]` fires
`on_stop(0)` then `on_start(2)` and keeps size 1. -/
theorem C6_witness :
    (({ running := true, state_stack := [0] } : StateMachine Nat).transition
        (Trans.switch 2)).2 = [Event.on_stop 0, Event.on_start 2] :=
  (C6_switch_behaviour Nat { running := true, state_stack := [0] } 2 0 []
      rfl rfl).2.2.1

/-- Claim C7: `start()` is idempotent — a fresh machine's first `start`
fires `on_start` on the initial state and sets `running`; the second
`start` (and any `start` on a running machine) is a no-op with no
callbacks, so two `start`s fire `on_start` exactly once. -/
theorem C7_start_idempotent (σ : Type) (s : σ) (m : StateMachine σ)
    (h : m.running = true) :
    (StateMachine.new s).start =
      Option.some ({ running := true, state_stack := [s] },
        [Event.on_start s]) ∧
    ({ running := true, state_stack := [s] } : StateMachine σ).start =
      Option.some ({ running := true, state_stack := [s] }, []) ∧
    m.start = Option.some (m, []) := by
  refine ⟨rfl, rfl, ?_⟩
  simp [StateMachine.start, h]

/-- Claim C7, witness: starting twice from `new(0)`. -/
theorem C7_witness :
    (StateMachine.new (0 : Nat)).start =
      Option.some ({ running := true, state_stack := [0] },
        [Event.on_start 0]) ∧
    ({ running := true, state_stack := [0] } : StateMachine Nat).start =
      Option.some ({ running := true, state_stack := [0] }, []) :=
  ⟨(C7_start_idempotent Nat 0 { running := true, state_stack := [0] } rfl).1,
   (C7_start_idempotent Nat 0 { running := true, state_stack := [0] } rfl).2.1⟩

/-- Claim C8: on a machine that is not running, `update`, `fixed_update`
and `handle_events` are safe no-ops: no callbacks are invoked and the
machine (stack and `running` flag) is unchanged. -/
theorem C8_tick_before_start (σ : Type) (m : StateMachine σ)
    (f g : σ → Trans σ) (h : m.running = false) :
    m.update f = (m, []) ∧ m.fixed_update g = (m, []) ∧
    m.handle_events = (m, []) := by
  refine ⟨?_, ?_, ?_⟩ <;>
    simp [StateMachine.update, StateMachine.fixed_update,
      StateMachine.handle_events, h]

/-- Claim C8, witness: ticking the fresh machine `new(0)`. -/
theorem C8_witness :
    (StateMachine.new (0 : Nat)).update (State.update_default Nat) =
      (StateMachine.new 0, []) :=
  (C8_tick_before_start Nat (StateMachine.new 0) (State.update_default Nat)
      (State.fixed_update_default Nat) rfl).1

/-- Claim C9: the default `State::update` returns `Trans::Pop` and the
default `State::fixed_update` returns `Trans::None`; hence on a running
machine a non-overriding state is popped (with its `on_stop` fired) by its
first variable-rate tick, while a default `fixed_update` tick changes
nothing. -/
theorem C9_default_update_pops (σ : Type) (m : StateMachine σ) (top : σ)
    (rest : List σ) (h : m.running = true)
    (hs : m.state_stack = top :: rest) :
    (∀ x : σ, State.update_default σ x = Trans.pop) ∧
    (∀ x : σ, State.fixed_update_default σ x = Trans.none) ∧
    (m.update (State.update_default σ)).1.state_stack = rest ∧
    (m.update (State.update_default σ)).2 =
      Event.on_stop top ::
        (match rest.head? with
         | Option.some next => [Event.on_resume next]
         | Option.none => []) ∧
    m.fixed_update (State.fixed_update_default σ) = (m, []) := by
  refine ⟨fun _ => rfl, fun _ => rfl, ?_, ?_, ?_⟩
  · cases rest with
    | nil =>
        simp [StateMachine.update, StateMachine.transition, StateMachine.pop,
          State.update_default, h, hs]
    | cons next rest2 =>
        simp [StateMachine.update, StateMachine.transition, StateMachine.pop,
          State.update_default, h, hs]
  · cases rest with
    | nil =>
        simp [StateMachine.update, StateMachine.transition, StateMachine.pop,
          State.update_default, h, hs]
    | cons next rest2 =>
        simp [StateMachine.update, StateMachine.transition, StateMachine.pop,
          State.update_default, h, hs]
  · simp [StateMachine.fixed_update, StateMachine.transition,
      State.fixed_update_default, h, hs]

/-- Claim C9, witness: the default tick pops the started machine
`new(0)`. -/
theorem C9_witness :
    (({ running := true, state_stack := [0] } : StateMachine Nat).update
        (State.update_default Nat)).1.state_stack = [] :=
  (C9_default_update_pops Nat { running := true, state_stack := [0] } 0 []
      rfl rfl).2.2.1

/-- Claim C10: `start()` unwraps the top state unconditionally, so on a
not-running machine with an empty stack it panics (`Option.none` in this
embedding) — and such a machine is reachable through the public interface
by `new(0); start(); pop(); stop()`; with a non-empty stack `start()`
always returns normally. -/
theorem C10_start_panics_on_empty (σ : Type) (m : StateMachine σ) :
    (StateMachine.new (0 : Nat)).runOps [Op.start, Op.pop, Op.stop, Op.start] =
      Option.none ∧
    (m.state_stack = [] → m.running = false → m.start = Option.none) ∧
    (m.state_stack ≠ [] → ∃ p, m.start = Option.some p) := by
  refine ⟨by decide, ?_, ?_⟩
  · intro hs hr
    simp [StateMachine.start, StateMachine.current, hs, hr]
  · intro hne
    by_cases hr : m.running
    · exact ⟨(m, []), by simp [StateMachine.start, hr]⟩
    · obtain ⟨top, rest, hs⟩ : ∃ top rest, m.state_stack = top :: rest := by
        cases hq : m.state_stack with
        | nil => exact absurd hq hne
        | cons a l => exact ⟨a, l, rfl⟩
      exact ⟨({ m with running := true }, [Event.on_start top]),
        by simp [StateMachine.start, StateMachine.current, hr, hs]⟩

/-- Claim C10, witness: the panic at the concrete empty-stack machine and
normal return at a singleton-stack machine. -/
theorem C10_witness :
    ({ running := false, state_stack := ([] : List Nat) } :
        StateMachine Nat).start = Option.none ∧
    ∃ p, ({ running := false, state_stack := [0] } :
        StateMachine Nat).start = Option.some p :=
  ⟨(C10_start_panics_on_empty Nat
      { running := false, state_stack := ([] : List Nat) }).2.1 rfl rfl,
   (C10_start_panics_on_empty Nat
      { running := false, state_stack := [0] }).2.2 (by decide)⟩

end Amethyst
